import Mathlib

/-!
# Tickora habit ledger — verification development

Shallow embedding of `script.js` (Tickora habit tracker).

Modelling conventions, fixed once for the whole file:

* A JS `Date` instant is modelled as minutes since the Unix epoch, UTC
  (`Int`).  The ambient local time zone is a fixed offset `tz` in minutes
  (local wall time = instant + `tz`); `toISOString` always formats the UTC
  components of the instant, per ECMA-262.
* A `DateKey` (`"YYYY-MM-DD"`) corresponds bijectively to a day number
  (days since the epoch).  The streak and statistics logic of the source
  walks DateKeys day by day through `Date` round-trips; under the fixed
  offset model a one-day decrement of a `Date` holding a UTC midnight is
  exactly a decrement of the day number, so those functions are embedded
  over day numbers (`Int`).  The formatting functions that actually
  produce the `"YYYY-MM-DD"` text (`getTodayDate`, `getWeekDates`,
  `getMonthDates`) are embedded down to the string, via the proleptic
  Gregorian calendar of ECMA-262.
* A JS object used as a map is an association list with unique keys,
  insertion ordered, exactly how the source enumerates and updates them.
* JS numbers in the statistics code are embedded as `Rat`; the quantities
  involved (counts up to 50, percentages) are exact in binary64 except for
  the division, whose rounding cannot change any comparison made by the
  source, so the rational model is faithful to the comparisons performed.
* `localStorage` persistence is out of scope (spec §6); a ledger operation
  is a function from the ledger value to either a new ledger value or a
  structured error, so a failing operation returns no ledger at all —
  this is the embedding of "validation failures must not be persisted".
-/

/-! ## Proleptic Gregorian calendar (ECMA-262 Date semantics) -/

/-- Leap year predicate of the proleptic Gregorian calendar. -/
def isLeap (y : Int) : Bool :=
  Int.emod y 4 == 0 && (Int.emod y 100 != 0 || Int.emod y 400 == 0)

/-- Number of days in month `m` (1–12) of year `y`; the value
`new Date(y, m, 0).getDate()` computes in the source. -/
def daysInMonth (y m : Int) : Int :=
  if m = 2 then (if isLeap y then 29 else 28)
  else if m = 4 ∨ m = 6 ∨ m = 9 ∨ m = 11 then 30
  else 31

/-- Day number (days since 1970-01-01) of the civil date `y-m-d`. -/
def daysFromCivil (y m d : Int) : Int :=
  let y' := if m ≤ 2 then y - 1 else y
  let era := Int.ediv y' 400
  let yoe := y' - era * 400
  let doy := Int.ediv (153 * (m + (if m > 2 then -3 else 9)) + 2) 5 + d - 1
  let doe := yoe * 365 + Int.ediv yoe 4 - Int.ediv yoe 100 + doy
  era * 146097 + doe - 719468

/-- Civil date `(y, m, d)` of a day number. -/
def civilFromDays (z : Int) : Int × Int × Int :=
  let z' := z + 719468
  let era := Int.ediv z' 146097
  let doe := z' - era * 146097
  let yoe :=
    Int.ediv (doe - Int.ediv doe 1460 + Int.ediv doe 36524 - Int.ediv doe 146096) 365
  let y := yoe + era * 400
  let doy := doe - (365 * yoe + Int.ediv yoe 4 - Int.ediv yoe 100)
  let mp := Int.ediv (5 * doy + 2) 153
  let d := doy - Int.ediv (153 * mp + 2) 5 + 1
  let m := mp + (if mp < 10 then 3 else -9)
  (if m ≤ 2 then y + 1 else y, m, d)

/-- Two-digit zero padding, as `String(n).padStart(2, '0')` and the
month/day fields of `toISOString`. -/
def pad2 (n : Nat) : String :=
  if n < 10 then "0" ++ toString n else toString n

/-- Four-digit zero padding for the year field of `toISOString`. -/
def pad4 (n : Nat) : String :=
  if n < 10 then "000" ++ toString n
  else if n < 100 then "00" ++ toString n
  else if n < 1000 then "0" ++ toString n
  else toString n

/-- `toISOString().split('T')[0]` of an instant whose UTC day number is
`z`: the `"YYYY-MM-DD"` text of the UTC calendar date. -/
def isoOfDay (z : Int) : String :=
  let c := civilFromDays z
  pad4 c.1.toNat ++ "-" ++ pad2 c.2.1.toNat ++ "-" ++ pad2 c.2.2.toNat

/-- UTC day number of an instant (minutes since epoch). -/
def utcDayOf (t : Int) : Int := Int.ediv t 1440

/-- `getTodayDate()` (source lines 50–53): formats the current instant with
`toISOString`, i.e. the UTC calendar date; the local offset `tz` is not
consulted. -/
def getTodayDate (now tz : Int) : String :=
  let _ := tz
  isoOfDay (utcDayOf now)

/-- `getWeekDates()` (source lines 56–65): for i = 6 … 0 takes a copy of
the current instant, moves it back `i` local days (which, at a fixed
offset, is exactly `i * 1440` minutes) and formats it with `toISOString`. -/
def getWeekDates (now tz : Int) : List String :=
  let _ := tz
  (List.range 7).map (fun k => isoOfDay (utcDayOf (now - (6 - (k : Int)) * 1440)))

/-- `getMonthDates()` (source lines 68–80): reads the current *local*
year and month, takes `daysInMonth` from `new Date(year, month + 1, 0)`,
then for each day builds the *local* midnight `new Date(year, month, day)`
(instant `daysFromCivil y m day * 1440 - tz`) and formats it with
`toISOString`, i.e. as a UTC date. -/
def getMonthDates (now tz : Int) : List String :=
  let localNow := now + tz
  let c := civilFromDays (Int.ediv localNow 1440)
  let y := c.1
  let m := c.2.1
  let dim := daysInMonth y m
  (List.range dim.toNat).map (fun k =>
    isoOfDay (Int.ediv (daysFromCivil y m ((k : Int) + 1) * 1440 - tz) 1440))

/-! ## Association lists (JS objects used as maps) -/

/-- Property read `l[k]` on an object embedded as an association list
(`undefined` ↦ `none`). -/
def lookupKV {κ α : Type} [DecidableEq κ] : List (κ × α) → κ → Option α
  | [], _ => none
  | (k', v) :: rest, k => if k' = k then some v else lookupKV rest k

/-- Property write `l[k] = v`: replaces the value in place when the key
exists (JS objects keep the original key position), appends otherwise. -/
def setKV {κ α : Type} [DecidableEq κ] : List (κ × α) → κ → α → List (κ × α)
  | [], k, v => [(k, v)]
  | (k', v') :: rest, k, v =>
    if k' = k then (k, v) :: rest else (k', v') :: setKV rest k v

/-! ## The ledger -/

/-- The persisted data blob of the source (`initializeData`, lines 83–97),
with DateKeys as day numbers.  `dailyData` maps a day to its
`DailyRecord`, an activity-name → completion-flag object. -/
structure Ledger where
  activities : List String
  dailyData : List (Int × List (String × Bool))
  appOpens : List Int
  currentStreak : Nat
  bestStreak : Nat
  lastResetDate : Int
  lastOpenDate : Int
  theme : String
deriving DecidableEq, Repr

/-- `initializeData()` (source lines 83–97). -/
def initialLedger (today : Int) : Ledger :=
  { activities := []
    dailyData := []
    appOpens := []
    currentStreak := 0
    bestStreak := 0
    lastResetDate := today
    lastOpenDate := today
    theme := "light" }

/-- The `DailyRecord` of a date: `data.dailyData[date] || {}`. -/
def dayRec (L : Ledger) (date : Int) : List (String × Bool) :=
  (lookupKV L.dailyData date).getD []

/-! ## Activity management -/

/-- `sanitizeInput` (source lines 7–12): writes the input into a detached
element's `textContent` and reads `textContent` back, which round-trips
every string unchanged (no markup is parsed on that path). -/
def sanitizeInput (s : String) : String := s

/-- JS `String.prototype.trim` whitespace (restricted to the ASCII
whitespace the claims exercise). -/
def isSpaceChar (c : Char) : Bool :=
  (c == ' ') || (c == '\t') || (c == '\n') || (c == '\r')

/-- `name.trim()` on the model's character list. -/
def trimInput (s : String) : String :=
  ⟨((s.data.dropWhile isSpaceChar).reverse.dropWhile isSpaceChar).reverse⟩

/-- `validateActivityName` (source lines 15–20): `none` plays the role of
the `false` return. -/
def validateActivityName (name : String) : Option String :=
  let sanitized := trimInput (sanitizeInput name)
  if sanitized.length = 0 ∨ sanitized.length > 100 then none else some sanitized

/-- Structured errors of the failing `addActivity` paths (spec §7). -/
inductive AddError where
  | InvalidName
  | DuplicateName
  | LimitExceeded
deriving DecidableEq, Repr

/-- `addActivity` (source lines 252–276): validate, reject duplicates
(case-sensitive string equality), reject at the 50-activity cap, else
append the sanitized name.  Each `alert`-and-return path of the source is
the corresponding structured error; on an error no ledger is produced. -/
def addActivity (L : Ledger) (name : String) : Except AddError Ledger :=
  match validateActivityName name with
  | none => .error .InvalidName
  | some validatedName =>
    if validatedName ∈ L.activities then .error .DuplicateName
    else if L.activities.length ≥ 50 then .error .LimitExceeded
    else .ok { L with activities := L.activities ++ [validatedName] }

/-- `deleteActivity` (source lines 279–298, the confirmed path): filters
the name out of `activities` and deletes the key `name` from every
`DailyRecord` (the source's `!== undefined` guard only skips deletes that
would do nothing). -/
def deleteActivity (L : Ledger) (name : String) : Ledger :=
  { L with
    activities := L.activities.filter (fun a => a != name)
    dailyData := L.dailyData.map (fun p => (p.1, p.2.filter (fun q => q.1 != name))) }

/-- `toggleActivity` (source lines 301–318): ensures today's record
exists, reads `dailyData[today][name] || false` and writes the negation.
No membership check of `name` against `activities` is performed. -/
def toggleActivity (L : Ledger) (today : Int) (name : String) : Ledger :=
  let r := dayRec L today
  let currentStatus := (lookupKV r name).getD false
  { L with dailyData := setKV L.dailyData today (setKV r name (!currentStatus)) }

/-- `getActivityStatus` (source lines 321–330). -/
def getActivityStatus (L : Ledger) (today : Int) (name : String) : Bool :=
  (lookupKV (dayRec L today) name).getD false

/-! ## Streaks -/

/-- Ascending sort of the app-open log; both `appOpens.sort()` (string
sort — lexicographic equals chronological on DateKeys) and the numeric
re-sort on line 225 of the source. -/
def sortDates (l : List Int) : List Int := List.insertionSort (· ≤ ·) l

/-- The backward `while` loop of `updateStreak` (source lines 194–202 /
211–219): starting at day `start`, counts how many consecutive days are
present, decrementing one day per hit.  The loop performs at most one
iteration per distinct member of `dates`, so fuel `dates.length` is
enough for the count to stop at a genuine gap (proved below). -/
def streakFrom (dates : List Int) : Int → Nat → Nat
  | _, 0 => 0
  | start, fuel + 1 =>
    if start ∈ dates then streakFrom dates (start - 1) fuel + 1 else 0

/-- The current-streak part of `updateStreak` (source lines 187–221):
if today is present, count from 1 walking back from yesterday; otherwise
if yesterday is present, count from 1 walking back from the day before;
otherwise 0. -/
def currentStreakCalc (sorted : List Int) (today : Int) : Nat :=
  if today ∈ sorted then 1 + streakFrom sorted (today - 1) sorted.length
  else if today - 1 ∈ sorted then 1 + streakFrom sorted (today - 1 - 1) sorted.length
  else 0

/-- The best-streak scan of `updateStreak` (source lines 227–242), after
the `i = 0` iteration: `best` and `temp` are the accumulators, `prev` the
previous date; a difference of exactly one day extends the run, anything
else banks the run and restarts at 1.  The final `max best temp` is the
`Math.max(bestStreak, tempStreak, …)` of line 243. -/
def bestLoop : List Int → Int → Nat → Nat → Nat
  | [], _, best, temp => max best temp
  | d :: rest, prev, best, temp =>
    if d - prev = 1 then bestLoop rest d best (temp + 1)
    else bestLoop rest d (max best temp) 1

/-- Lines 223–243 of the source: the whole best-streak computation, also
taking the max with the fresh current streak. -/
def bestStreakCalc (sorted : List Int) (current : Nat) : Nat :=
  match sorted with
  | [] => max 0 current
  | d :: rest => max (bestLoop rest d 0 1) current

/-- `updateStreak` (source lines 176–247) as the pure
`appOpens × today → (currentStreak, bestStreak)` map. -/
def updateStreakPair (appOpens : List Int) (today : Int) : Nat × Nat :=
  if appOpens = [] then (0, 0)
  else
    let sorted := sortDates appOpens
    let current := currentStreakCalc sorted today
    (current, bestStreakCalc sorted current)

/-- `updateStreak` acting on the data blob: writes both streak fields and
leaves `appOpens` sorted (the source's `appOpens.sort()` sorts in place). -/
def recomputeStreaks (L : Ledger) (today : Int) : Ledger :=
  if L.appOpens = [] then { L with currentStreak := 0, bestStreak := 0 }
  else
    { L with
      appOpens := sortDates L.appOpens
      currentStreak := (updateStreakPair L.appOpens today).1
      bestStreak := (updateStreakPair L.appOpens today).2 }

/-- `trackAppOpen` (source lines 159–173): when today is already logged
nothing happens (no push, no streak update, no save); otherwise today is
appended, streaks recomputed and `lastOpenDate` set. -/
def trackAppOpen (L : Ledger) (today : Int) : Ledger :=
  if today ∈ L.appOpens then L
  else
    let L2 := recomputeStreaks { L with appOpens := L.appOpens ++ [today] } today
    { L2 with lastOpenDate := today }

/-! ## Success-percentage aggregation -/

/-- `Math.round` of JS: round half toward positive infinity. -/
def jsRound (q : Rat) : Int := Rat.floor (q + 1 / 2)

/-- `dayCompleted` of one date (source lines 392–395): how many
activities are marked exactly `true`. -/
def dayCompletedCount (acts : List String) (r : List (String × Bool)) : Nat :=
  acts.countP (fun a => lookupKV r a == some true)

/-- `hasData` of one date (source lines 396–398): some activity key is
present (`!== undefined`), whatever its value. -/
def dayHasData (acts : List String) (r : List (String × Bool)) : Bool :=
  acts.any (fun a => (lookupKV r a).isSome)

/-- The `forEach` accumulation of `calculateSuccessPercentage` (source
lines 383–410), yielding `(daysWithData, completedDays,
totalDayPercentage)`; the three accumulators commute, so the fold
direction is immaterial. -/
def successFold (L : Ledger) : List Int → Nat × Nat × Rat
  | [] => (0, 0, 0)
  | date :: rest =>
    let acc := successFold L rest
    let r := dayRec L date
    let dayCompleted := dayCompletedCount L.activities r
    if dayHasData L.activities r then
      let dayPercentage : Rat := ((dayCompleted : Rat) / (L.activities.length : Rat)) * 100
      (acc.1 + 1, (if dayPercentage = 100 then acc.2.1 + 1 else acc.2.1),
        acc.2.2 + dayPercentage)
    else acc

/-- `calculateSuccessPercentage` (source lines 375–415). -/
def calculateSuccessPercentage (L : Ledger) (dateRange : List Int) : Nat × Int :=
  if L.activities.length = 0 ∨ dateRange.length = 0 then (0, 0)
  else
    let s := successFold L dateRange
    (s.2.1, if s.1 > 0 then jsRound (s.2.2 / (s.1 : Rat)) else 0)

/-! ## Lemmas about the backward streak walk -/

theorem streakFrom_le (dates : List Int) :
    ∀ (fuel : Nat) (start : Int), streakFrom dates start fuel ≤ fuel := by
  intro fuel
  induction fuel with
  | zero => intro start; simp [streakFrom]
  | succ f ih =>
    intro start
    simp only [streakFrom]
    split
    · exact Nat.succ_le_succ (ih (start - 1))
    · exact Nat.zero_le _

theorem streakFrom_mem (dates : List Int) :
    ∀ (fuel : Nat) (start : Int) (j : Nat),
      j < streakFrom dates start fuel → start - (j : Int) ∈ dates := by
  intro fuel
  induction fuel with
  | zero => intro start j h; simp [streakFrom] at h
  | succ f ih =>
    intro start j h
    simp only [streakFrom] at h
    by_cases hs : start ∈ dates
    · rw [if_pos hs] at h
      match j with
      | 0 => simpa using hs
      | j + 1 =>
        have hj : j < streakFrom dates (start - 1) f := by omega
        have := ih (start - 1) j hj
        have harith : start - ((j : Int) + 1) = start - 1 - (j : Int) := by ring
        rw [show ((j + 1 : Nat) : Int) = (j : Int) + 1 by push_cast; ring, harith]
        exact this
    · rw [if_neg hs] at h
      omega

theorem streakFrom_stop (dates : List Int) :
    ∀ (fuel : Nat) (start : Int),
      streakFrom dates start fuel < fuel →
      start - (streakFrom dates start fuel : Int) ∉ dates := by
  intro fuel
  induction fuel with
  | zero => intro start h; omega
  | succ f ih =>
    intro start h
    simp only [streakFrom] at h ⊢
    by_cases hs : start ∈ dates
    · rw [if_pos hs] at h ⊢
      have hlt : streakFrom dates (start - 1) f < f := by omega
      have := ih (start - 1) hlt
      intro hmem
      apply this
      have : start - ((streakFrom dates (start - 1) f : Int) + 1)
          = start - 1 - (streakFrom dates (start - 1) f : Int) := by ring
      rw [show ((streakFrom dates (start - 1) f + 1 : Nat) : Int)
          = (streakFrom dates (start - 1) f : Int) + 1 by push_cast; ring, this] at hmem
      exact hmem
    · rw [if_neg hs]
      simpa using hs

theorem streakFrom_not_full (dates : List Int) (head : Int) (hmem : head ∈ dates) :
    streakFrom dates (head - 1) dates.length < dates.length := by
  by_contra hfull
  have hle := streakFrom_le dates dates.length (head - 1)
  have heq : streakFrom dates (head - 1) dates.length = dates.length := by omega
  set n := dates.length with hn
  have hsub : (Finset.range (n + 1)).image (fun j : Nat => head - (j : Int))
      ⊆ dates.toFinset := by
    intro x hx
    simp only [Finset.mem_image, Finset.mem_range] at hx
    obtain ⟨j, hj, rfl⟩ := hx
    rw [List.mem_toFinset]
    match j with
    | 0 => simpa using hmem
    | j + 1 =>
      have hj' : j < streakFrom dates (head - 1) n := by omega
      have := streakFrom_mem dates n (head - 1) j hj'
      rw [show head - ((j + 1 : Nat) : Int) = head - 1 - (j : Int) by push_cast; ring]
      exact this
  have hinj : Function.Injective (fun j : Nat => head - (j : Int)) := by
    intro a b hab
    simp only at hab
    omega
  have hcard : n + 1 ≤ dates.toFinset.card := by
    calc n + 1 = ((Finset.range (n + 1)).image (fun j : Nat => head - (j : Int))).card := by
          rw [Finset.card_image_of_injective _ hinj, Finset.card_range]
      _ ≤ dates.toFinset.card := Finset.card_le_card hsub
  have := dates.toFinset_card_le
  omega

/-- For `head ∈ dates`, the count `1 + streakFrom dates (head - 1) dates.length`
(what the source's `while` loop produces) covers a genuine consecutive run
ending at `head` and stops at a genuine gap. -/
theorem walkHead_spec (dates : List Int) (head : Int) (hmem : head ∈ dates) :
    (∀ j : Nat, j < 1 + streakFrom dates (head - 1) dates.length →
        head - (j : Int) ∈ dates) ∧
      head - ((1 + streakFrom dates (head - 1) dates.length : Nat) : Int) ∉ dates := by
  have hstop := streakFrom_stop dates dates.length (head - 1)
    (streakFrom_not_full dates head hmem)
  constructor
  · intro j hj
    match j with
    | 0 => simpa using hmem
    | j + 1 =>
      have hj' : j < streakFrom dates (head - 1) dates.length := by omega
      have := streakFrom_mem dates dates.length (head - 1) j hj'
      rw [show head - ((j + 1 : Nat) : Int) = head - 1 - (j : Int) by push_cast; ring]
      exact this
  · intro hcon
    apply hstop
    rw [show head - ((1 + streakFrom dates (head - 1) dates.length : Nat) : Int)
        = head - 1 - (streakFrom dates (head - 1) dates.length : Int) by push_cast; ring] at hcon
    exact hcon

/-- C1 — The current streak computed by `updateStreakPair S today` is the
length of the maximal run of consecutive days of `S` ending at `today`
when `today ∈ S`; the length of the maximal run ending at `today - 1`
when `today ∉ S` but `today - 1 ∈ S`; and `0` when neither day is in `S`.
"Maximal run ending at `d` of length `c`" is stated as: every `d - j`
with `j < c` is in `S`, and every run length `k` ending at `d` satisfies
`k ≤ c`. -/
theorem C1_currentStreak_is_maximal_run (S : List Int) (today : Int) :
    (today ∈ S →
      (∀ j : Nat, j < (updateStreakPair S today).1 → today - (j : Int) ∈ S) ∧
      (∀ k : Nat, (∀ j : Nat, j < k → today - (j : Int) ∈ S) →
        k ≤ (updateStreakPair S today).1)) ∧
    (today ∉ S → today - 1 ∈ S →
      (∀ j : Nat, j < (updateStreakPair S today).1 → today - 1 - (j : Int) ∈ S) ∧
      (∀ k : Nat, (∀ j : Nat, j < k → today - 1 - (j : Int) ∈ S) →
        k ≤ (updateStreakPair S today).1)) ∧
    (today ∉ S → today - 1 ∉ S → (updateStreakPair S today).1 = 0) := by
  by_cases hS : S = []
  · subst hS
    refine ⟨fun h => absurd h (by simp), fun h => by simp at *, fun _ _ => by
      simp [updateStreakPair]⟩
  · have hmm : ∀ x : Int, x ∈ sortDates S ↔ x ∈ S := fun x =>
      (List.perm_insertionSort (· ≤ ·) S).mem_iff
    have hfst : (updateStreakPair S today).1 = currentStreakCalc (sortDates S) today := by
      simp [updateStreakPair, hS]
    refine ⟨?_, ?_, ?_⟩
    · intro htoday
      have ht' : today ∈ sortDates S := (hmm today).mpr htoday
      have hc : (updateStreakPair S today).1
          = 1 + streakFrom (sortDates S) (today - 1) (sortDates S).length := by
        rw [hfst, currentStreakCalc, if_pos ht']
      obtain ⟨hmem, hstop⟩ := walkHead_spec (sortDates S) today ht'
      constructor
      · intro j hj
        exact (hmm _).mp (hmem j (by omega))
      · intro k hk
        by_contra hgt
        have hkc : (updateStreakPair S today).1 < k := by omega
        have := hk (1 + streakFrom (sortDates S) (today - 1) (sortDates S).length)
          (by omega)
        exact hstop ((hmm _).mpr this)
    · intro htoday hyest
      have ht' : today ∉ sortDates S := fun h => htoday ((hmm today).mp h)
      have hy' : today - 1 ∈ sortDates S := (hmm _).mpr hyest
      have hc : (updateStreakPair S today).1
          = 1 + streakFrom (sortDates S) (today - 1 - 1) (sortDates S).length := by
        rw [hfst, currentStreakCalc, if_neg ht', if_pos hy']
      obtain ⟨hmem, hstop⟩ := walkHead_spec (sortDates S) (today - 1) hy'
      constructor
      · intro j hj
        exact (hmm _).mp (hmem j (by omega))
      · intro k hk
        by_contra hgt
        have := hk (1 + streakFrom (sortDates S) (today - 1 - 1) (sortDates S).length)
          (by omega)
        exact hstop ((hmm _).mpr this)
    · intro htoday hyest
      have ht' : today ∉ sortDates S := fun h => htoday ((hmm today).mp h)
      have hy' : today - 1 ∉ sortDates S := fun h => hyest ((hmm _).mp h)
      rw [hfst, currentStreakCalc, if_neg ht', if_neg hy']

/-- C1 witness — the spec scenario: `appOpens` = {2024-01-01, 2024-01-02,
2024-01-03}, `today` = 2024-01-03; the maximal-run characterization holds
there and the computed current streak is 3. -/
theorem C1_currentStreak_witness :
    ((daysFromCivil 2024 1 3
        ∈ [daysFromCivil 2024 1 1, daysFromCivil 2024 1 2, daysFromCivil 2024 1 3]) ∧
      (∀ j : Nat,
        j < (updateStreakPair
            [daysFromCivil 2024 1 1, daysFromCivil 2024 1 2, daysFromCivil 2024 1 3]
            (daysFromCivil 2024 1 3)).1 →
        daysFromCivil 2024 1 3 - (j : Int)
          ∈ [daysFromCivil 2024 1 1, daysFromCivil 2024 1 2, daysFromCivil 2024 1 3])) ∧
    (updateStreakPair
        [daysFromCivil 2024 1 1, daysFromCivil 2024 1 2, daysFromCivil 2024 1 3]
        (daysFromCivil 2024 1 3)).1 = 3 := by
  refine ⟨⟨by decide, ?_⟩, by decide⟩
  exact ((C1_currentStreak_is_maximal_run
    [daysFromCivil 2024 1 1, daysFromCivil 2024 1 2, daysFromCivil 2024 1 3]
    (daysFromCivil 2024 1 3)).1 (by decide)).1

/-! ## The longest-consecutive-run reading of the best streak (spec §4) -/

/-- The run length starting at the head of a sorted date list: it extends
by 1 exactly when the adjacent dates differ by exactly one day, otherwise
it stops (the spec's description of a run). -/
def chainLen : List Int → Nat
  | [] => 0
  | [_] => 1
  | a :: b :: rest => if b - a = 1 then chainLen (b :: rest) + 1 else 1

/-- The length of the longest run of consecutive days in a (sorted) date
list: the maximum of the run lengths starting at each position. -/
def longestRun : List Int → Nat
  | [] => 0
  | a :: rest => max (chainLen (a :: rest)) (longestRun rest)

/-- How far the run through `prev` continues into `l`. -/
def contFrom : Int → List Int → Nat
  | _, [] => 0
  | prev, d :: rest => if d - prev = 1 then contFrom d rest + 1 else 0

/-- The longest run of the part of `l` after the run through `prev` ends. -/
def runsAfter : Int → List Int → Nat
  | _, [] => 0
  | prev, d :: rest => if d - prev = 1 then runsAfter d rest else longestRun (d :: rest)

theorem chainLen_cons (a : Int) (l : List Int) : chainLen (a :: l) = contFrom a l + 1 := by
  induction l generalizing a with
  | nil => simp [chainLen, contFrom]
  | cons b rest ih =>
    simp only [chainLen, contFrom]
    split
    · rw [ih b]
    · rfl

theorem bestLoop_hom (l : List Int) :
    ∀ (prev : Int) (best temp : Nat),
      bestLoop l prev best temp = max best (bestLoop l prev 0 temp) := by
  induction l with
  | nil => intro prev best temp; simp [bestLoop]
  | cons d rest ih =>
    intro prev best temp
    simp only [bestLoop]
    split
    · rw [ih d best (temp + 1)]
    · rw [ih d (max best temp) 1, ih d (max 0 temp) 1]
      omega

theorem runsAfter_le_longestRun (l : List Int) :
    ∀ prev : Int, runsAfter prev l ≤ longestRun l := by
  induction l with
  | nil => intro prev; simp [runsAfter, longestRun]
  | cons d rest ih =>
    intro prev
    simp only [runsAfter, longestRun]
    split
    · exact le_trans (ih d) (le_max_right _ _)
    · simp [longestRun]

theorem longestRun_le (l : List Int) :
    ∀ prev : Int, longestRun l ≤ max (chainLen (prev :: l)) (runsAfter prev l) := by
  induction l with
  | nil => intro prev; simp [longestRun]
  | cons e rest ih =>
    intro prev
    by_cases hd : e - prev = 1
    · have h1 : chainLen (prev :: e :: rest) = chainLen (e :: rest) + 1 := by
        simp [chainLen, hd]
      have h2 : runsAfter prev (e :: rest) = runsAfter e rest := by
        simp [runsAfter, hd]
      have h3 := ih e
      have h4 : longestRun (e :: rest) = max (chainLen (e :: rest)) (longestRun rest) := rfl
      omega
    · have h2 : runsAfter prev (e :: rest) = longestRun (e :: rest) := by
        simp [runsAfter, hd]
      omega

theorem bestLoop_eq (l : List Int) :
    ∀ (prev : Int) (temp : Nat),
      bestLoop l prev 0 temp = max (temp + contFrom prev l) (runsAfter prev l) := by
  induction l with
  | nil => intro prev temp; simp [bestLoop, contFrom, runsAfter]
  | cons d rest ih =>
    intro prev temp
    simp only [bestLoop, contFrom, runsAfter]
    by_cases hd : d - prev = 1
    · rw [if_pos hd, if_pos hd, if_pos hd, ih d (temp + 1)]
      omega
    · rw [if_neg hd, if_neg hd, if_neg hd, bestLoop_hom, ih d 1]
      have h3 := runsAfter_le_longestRun rest d
      have h4 := longestRun_le rest d
      have h5 : chainLen (d :: rest) = contFrom d rest + 1 := chainLen_cons d rest
      have h6 : longestRun (d :: rest) = max (chainLen (d :: rest)) (longestRun rest) := rfl
      omega

theorem bestLoop_longestRun (d : Int) (rest : List Int) :
    bestLoop rest d 0 1 = longestRun (d :: rest) := by
  rw [bestLoop_eq rest d 1]
  have h3 := runsAfter_le_longestRun rest d
  have h4 := longestRun_le rest d
  have h5 : chainLen (d :: rest) = contFrom d rest + 1 := chainLen_cons d rest
  have h6 : longestRun (d :: rest) = max (chainLen (d :: rest)) (longestRun rest) := rfl
  omega

theorem bestStreakCalc_eq (l : List Int) (current : Nat) :
    bestStreakCalc l current = max (longestRun l) current := by
  match l with
  | [] => simp [bestStreakCalc, longestRun]
  | d :: rest =>
    simp only [bestStreakCalc]
    rw [bestLoop_longestRun d rest]

/-- C2 — On a non-empty app-open log the best streak computed by
`updateStreakPair` is the maximum of (a) the length of the longest run of
consecutive days among the ascending-sorted dates and (b) the freshly
computed current streak; on an empty log both streaks are 0. -/
theorem C2_bestStreak_is_max_run (S : List Int) (today : Int) :
    (S = [] → updateStreakPair S today = (0, 0)) ∧
    (S ≠ [] →
      (updateStreakPair S today).2
        = max (longestRun (sortDates S)) (updateStreakPair S today).1) := by
  constructor
  · intro h
    simp [updateStreakPair, h]
  · intro h
    simp only [updateStreakPair, if_neg h]
    exact bestStreakCalc_eq (sortDates S) (currentStreakCalc (sortDates S) today)

/-- C2 witness — the spec scenario: `appOpens` = {2024-01-01, 2024-01-03},
`today` = 2024-01-03: the identity holds there, and concretely the pair is
`(currentStreak, bestStreak) = (1, 1)`. -/
theorem C2_bestStreak_witness :
    ((updateStreakPair [daysFromCivil 2024 1 1, daysFromCivil 2024 1 3]
        (daysFromCivil 2024 1 3)).2
      = max (longestRun (sortDates [daysFromCivil 2024 1 1, daysFromCivil 2024 1 3]))
          (updateStreakPair [daysFromCivil 2024 1 1, daysFromCivil 2024 1 3]
            (daysFromCivil 2024 1 3)).1) ∧
    updateStreakPair [daysFromCivil 2024 1 1, daysFromCivil 2024 1 3]
        (daysFromCivil 2024 1 3) = (1, 1) := by
  refine ⟨?_, by decide⟩
  exact (C2_bestStreak_is_max_run [daysFromCivil 2024 1 1, daysFromCivil 2024 1 3]
    (daysFromCivil 2024 1 3)).2 (by decide)

/-! ## Idempotence of the streak recomputation -/

theorem sortDates_sorted (l : List Int) : List.Sorted (· ≤ ·) (sortDates l) :=
  List.sorted_insertionSort (· ≤ ·) l

theorem sortDates_idem (l : List Int) : sortDates (sortDates l) = sortDates l :=
  (sortDates_sorted l).insertionSort_eq

theorem sortDates_eq_nil_iff (l : List Int) : sortDates l = [] ↔ l = [] := by
  have hlen : (sortDates l).length = l.length :=
    (List.perm_insertionSort (· ≤ ·) l).length_eq
  constructor
  · intro h
    have : l.length = 0 := by rw [← hlen, h]; rfl
    exact List.length_eq_zero.mp this
  · intro h
    subst h
    rfl

theorem updateStreakPair_sortDates (S : List Int) (today : Int) (h : S ≠ []) :
    updateStreakPair (sortDates S) today = updateStreakPair S today := by
  have hs : sortDates S ≠ [] := fun hn => h ((sortDates_eq_nil_iff S).mp hn)
  simp only [updateStreakPair, if_neg hs, if_neg h, sortDates_idem]

/-- C7 — the streak recomputation is idempotent (applying it twice with
the same `today` yields the same ledger as applying it once) and
deterministic in its inputs (the resulting streak fields depend only on
the `appOpens` log and `today`). -/
theorem C7_recompute_idempotent_deterministic (L M : Ledger) (today : Int) :
    recomputeStreaks (recomputeStreaks L today) today = recomputeStreaks L today ∧
    (M.appOpens = L.appOpens →
      (recomputeStreaks M today).currentStreak = (recomputeStreaks L today).currentStreak ∧
      (recomputeStreaks M today).bestStreak = (recomputeStreaks L today).bestStreak) := by
  constructor
  · by_cases h : L.appOpens = []
    · simp [recomputeStreaks, h]
    · have hs : sortDates L.appOpens ≠ [] :=
        fun hn => h ((sortDates_eq_nil_iff L.appOpens).mp hn)
      simp [recomputeStreaks, h, hs, sortDates_idem,
        updateStreakPair_sortDates L.appOpens today h]
  · intro hMA
    by_cases h : L.appOpens = []
    · simp [recomputeStreaks, h, hMA]
    · have hM : M.appOpens ≠ [] := by rw [hMA]; exact h
      simp [recomputeStreaks, h, hM, hMA]

/-- C7 witness — the idempotence and determinism instantiated at a
concrete ledger (the initial ledger with a two-day open log). -/
theorem C7_recompute_witness :
    recomputeStreaks
        (recomputeStreaks { initialLedger 0 with appOpens := [7, 3] } 7) 7
      = recomputeStreaks { initialLedger 0 with appOpens := [7, 3] } 7 ∧
    (recomputeStreaks { initialLedger 0 with appOpens := [7, 3] } 7).currentStreak
      = (recomputeStreaks { initialLedger 0 with appOpens := [7, 3] } 7).currentStreak := by
  refine ⟨(C7_recompute_idempotent_deterministic
    { initialLedger 0 with appOpens := [7, 3] }
    { initialLedger 0 with appOpens := [7, 3] } 7).1, ?_⟩
  exact ((C7_recompute_idempotent_deterministic
    { initialLedger 0 with appOpens := [7, 3] }
    { initialLedger 0 with appOpens := [7, 3] } 7).2 rfl).1

/-! ## The spec's reading of the success aggregation (spec §4) -/

/-- Spec side: at least one activity key is explicitly present in the
date's `DailyRecord` (the date "contributes"). -/
def specDayTracked (L : Ledger) (date : Int) : Bool :=
  L.activities.any (fun a => (lookupKV (dayRec L date) a).isSome)

/-- Spec side: the date's `DailyRecord` marks every activity of
`activities` as `true`. -/
def specDayFull (L : Ledger) (date : Int) : Bool :=
  L.activities.all (fun a => lookupKV (dayRec L date) a == some true)

/-- Spec side: number of dates of the range that contribute and are fully
completed. -/
def specCompletedDays (L : Ledger) (range : List Int) : Nat :=
  range.countP (fun d => specDayTracked L d && specDayFull L d)

/-- Spec side: per-day completion percentage. -/
def specDayPct (L : Ledger) (date : Int) : Rat :=
  ((dayCompletedCount L.activities (dayRec L date) : Rat) / (L.activities.length : Rat)) * 100

/-- Spec side: arithmetic mean of the per-day percentages over the
contributing dates only, rounded to the nearest integer; 0 when no date
contributes. -/
def specOverall (L : Ledger) (range : List Int) : Int :=
  let cs := range.filter (fun d => specDayTracked L d)
  if cs.length = 0 then 0
  else jsRound ((cs.map (fun d => specDayPct L d)).sum / (cs.length : Rat))

theorem pct_hundred_iff (acts : List String) (r : List (String × Bool)) (h : acts ≠ []) :
    ((dayCompletedCount acts r : Rat) / (acts.length : Rat)) * 100 = 100 ↔
      acts.all (fun a => lookupKV r a == some true) = true := by
  have hn : ((acts.length : Rat)) ≠ 0 := by
    have hpos : 0 < acts.length := List.length_pos.mpr h
    exact Nat.cast_ne_zero.mpr (by omega)
  rw [div_mul_eq_mul_div, div_eq_iff hn]
  constructor
  · intro heq
    have hq : (dayCompletedCount acts r : Rat) = (acts.length : Rat) := by linarith
    have hceq : dayCompletedCount acts r = acts.length := by exact_mod_cast hq
    rw [List.all_eq_true]
    exact (List.countP_eq_length).mp hceq
  · intro hall
    have hceq : dayCompletedCount acts r = acts.length :=
      (List.countP_eq_length).mpr (List.all_eq_true.mp hall)
    rw [hceq]
    ring

theorem successFold_spec (L : Ledger) (h : L.activities ≠ []) (range : List Int) :
    successFold L range
      = ((range.filter (fun d => specDayTracked L d)).length,
          specCompletedDays L range,
          ((range.filter (fun d => specDayTracked L d)).map (fun d => specDayPct L d)).sum) := by
  induction range with
  | nil => rfl
  | cons date rest ih =>
    have htr : dayHasData L.activities (dayRec L date) = specDayTracked L date := rfl
    by_cases ht : specDayTracked L date = true
    · have hfil : (date :: rest).filter (fun d => specDayTracked L d)
          = date :: rest.filter (fun d => specDayTracked L d) :=
        List.filter_cons_of_pos ht
      have hcp : specCompletedDays L (date :: rest)
          = specCompletedDays L rest + if specDayFull L date = true then 1 else 0 := by
        simp [specCompletedDays, List.countP_cons, ht]
      simp only [successFold, ih, htr, ht, if_true, hfil, List.length_cons,
        List.map_cons, List.sum_cons, hcp]
      by_cases hfull : specDayFull L date = true
      · have hpct : ((dayCompletedCount L.activities (dayRec L date) : Rat)
            / (L.activities.length : Rat)) * 100 = 100 :=
          (pct_hundred_iff L.activities (dayRec L date) h).mpr hfull
        rw [if_pos hpct, if_pos hfull]
        simp only [Prod.mk.injEq]
        exact ⟨trivial, trivial, add_comm _ _⟩
      · have hpct : ¬ ((dayCompletedCount L.activities (dayRec L date) : Rat)
            / (L.activities.length : Rat)) * 100 = 100 := fun hc =>
          hfull ((pct_hundred_iff L.activities (dayRec L date) h).mp hc)
        rw [if_neg hpct, if_neg hfull]
        simp only [Prod.mk.injEq]
        exact ⟨trivial, by omega, add_comm _ _⟩
    · have hfalse : specDayTracked L date = false := by
        cases hb : specDayTracked L date
        · rfl
        · exact absurd hb ht
      have hfil : (date :: rest).filter (fun d => specDayTracked L d)
          = rest.filter (fun d => specDayTracked L d) :=
        List.filter_cons_of_neg ht
      have hcp : specCompletedDays L (date :: rest) = specCompletedDays L rest := by
        simp [specCompletedDays, List.countP_cons, hfalse]
      simp only [successFold, ih, htr, hfalse, Bool.false_eq_true, if_false, hfil, hcp]

/-- C3 — `calculateSuccessPercentage` returns exactly the spec's
aggregation: `completedDays` counts the contributing dates whose record
marks every activity true, `overall` is the rounded arithmetic mean of
the per-day percentages over the contributing dates; and it returns
`(0, 0)` whenever the range is empty, the activity list is empty, or no
date contributes. -/
theorem C3_success_aggregation (L : Ledger) (dateRange : List Int) :
    calculateSuccessPercentage L dateRange
        = (specCompletedDays L dateRange, specOverall L dateRange) ∧
    (dateRange = [] ∨ L.activities = [] ∨ (∀ d ∈ dateRange, specDayTracked L d = false) →
      calculateSuccessPercentage L dateRange = (0, 0)) := by
  have hTrackedOfActs : L.activities = [] → ∀ d, specDayTracked L d = false := by
    intro hA d
    simp [specDayTracked, hA]
  have main : calculateSuccessPercentage L dateRange
      = (specCompletedDays L dateRange, specOverall L dateRange) := by
    by_cases hguard : L.activities.length = 0 ∨ dateRange.length = 0
    · rw [calculateSuccessPercentage, if_pos hguard]
      rcases hguard with hA | hR
      · have hA' : L.activities = [] := List.length_eq_zero.mp hA
        have hcount : specCompletedDays L dateRange = 0 := by
          rw [specCompletedDays, List.countP_eq_zero]
          intro d _
          simp [hTrackedOfActs hA' d]
        have hfil : dateRange.filter (fun d => specDayTracked L d) = [] := by
          rw [List.filter_eq_nil_iff]
          intro d _
          simp [hTrackedOfActs hA' d]
        rw [hcount, specOverall, hfil]
        rfl
      · have hR' : dateRange = [] := List.length_eq_zero.mp hR
        subst hR'
        rfl
    · push_neg at hguard
      have hacts : L.activities ≠ [] := by
        intro hA
        exact hguard.1 (by rw [hA]; rfl)
      rw [calculateSuccessPercentage, if_neg (by push_neg; exact hguard)]
      rw [successFold_spec L hacts dateRange]
      simp only [specOverall]
      by_cases hcs : (dateRange.filter (fun d => specDayTracked L d)).length = 0
      · rw [if_pos hcs]
        have : ¬ (dateRange.filter (fun d => specDayTracked L d)).length > 0 := by omega
        rw [if_neg this]
      · rw [if_neg hcs, if_pos (by omega)]
  refine ⟨main, ?_⟩
  intro hcases
  rw [main]
  have hzero : (∀ d ∈ dateRange, specDayTracked L d = false) →
      (specCompletedDays L dateRange, specOverall L dateRange) = (0, 0) := by
    intro hf
    have hcount : specCompletedDays L dateRange = 0 := by
      rw [specCompletedDays, List.countP_eq_zero]
      intro d hd
      simp [hf d hd]
    have hfil : dateRange.filter (fun d => specDayTracked L d) = [] := by
      rw [List.filter_eq_nil_iff]
      intro d hd
      simp [hf d hd]
    rw [hcount, specOverall, hfil]
    rfl
  rcases hcases with h | h | h
  · subst h
    rfl
  · exact hzero (fun d _ => hTrackedOfActs h d)
  · exact hzero h

/-- C3 witness — over an empty date range the aggregation of a concrete
ledger returns `(0, 0)`. -/
theorem C3_success_witness :
    calculateSuccessPercentage { initialLedger 0 with activities := ["Gym"] } [] = (0, 0) :=
  (C3_success_aggregation { initialLedger 0 with activities := ["Gym"] } []).2 (Or.inl rfl)

/-! ## addActivity -/

theorem validateActivityName_eq_none (name : String)
    (h : (trimInput (sanitizeInput name)).length = 0 ∨
      (trimInput (sanitizeInput name)).length > 100) :
    validateActivityName name = none := by
  simp only [validateActivityName]
  rw [if_pos h]

theorem validateActivityName_eq_some (name : String)
    (h : ¬((trimInput (sanitizeInput name)).length = 0 ∨
      (trimInput (sanitizeInput name)).length > 100)) :
    validateActivityName name = some (trimInput (sanitizeInput name)) := by
  simp only [validateActivityName]
  rw [if_neg h]

theorem addActivity_ok_spec (L : Ledger) (name : String) (L' : Ledger)
    (h : addActivity L name = .ok L') :
    trimInput (sanitizeInput name) ∉ L.activities ∧
      L.activities.length < 50 ∧
      L' = { L with activities := L.activities ++ [trimInput (sanitizeInput name)] } := by
  cases hv : validateActivityName name with
  | none =>
    simp only [addActivity, hv] at h
    cases h
  | some v =>
    have hveq : v = trimInput (sanitizeInput name) := by
      by_cases hlen : (trimInput (sanitizeInput name)).length = 0 ∨
          (trimInput (sanitizeInput name)).length > 100
      · rw [validateActivityName_eq_none name hlen] at hv
        cases hv
      · rw [validateActivityName_eq_some name hlen] at hv
        cases hv
        rfl
    subst hveq
    simp only [addActivity, hv] at h
    by_cases hdup : trimInput (sanitizeInput name) ∈ L.activities
    · rw [if_pos hdup] at h
      cases h
    · rw [if_neg hdup] at h
      by_cases hlim : L.activities.length ≥ 50
      · rw [if_pos hlim] at h
        cases h
      · rw [if_neg hlim] at h
        cases h
        exact ⟨hdup, by omega, rfl⟩

/-- C4 — `addActivity` fails with `InvalidName` when the sanitized,
trimmed name is empty or longer than 100 characters; with `DuplicateName`
when (valid and) the sanitized name is already present under
case-sensitive string equality; with `LimitExceeded` when (valid, fresh
and) 50 activities exist; and on success the sanitized name is appended
at the end of `activities` with every other ledger field unchanged.  On
every failure no ledger is produced at all, which is the model of
"the ledger is unchanged and nothing is persisted". -/
theorem C4_addActivity_errors (L : Ledger) (name : String) :
    ((trimInput (sanitizeInput name)).length = 0 ∨
        (trimInput (sanitizeInput name)).length > 100 →
      addActivity L name = .error .InvalidName) ∧
    (¬((trimInput (sanitizeInput name)).length = 0 ∨
        (trimInput (sanitizeInput name)).length > 100) →
      trimInput (sanitizeInput name) ∈ L.activities →
      addActivity L name = .error .DuplicateName) ∧
    (¬((trimInput (sanitizeInput name)).length = 0 ∨
        (trimInput (sanitizeInput name)).length > 100) →
      trimInput (sanitizeInput name) ∉ L.activities →
      L.activities.length = 50 →
      addActivity L name = .error .LimitExceeded) ∧
    (∀ L', addActivity L name = .ok L' →
      L'.activities = L.activities ++ [trimInput (sanitizeInput name)] ∧
      L'.dailyData = L.dailyData ∧ L'.appOpens = L.appOpens ∧
      L'.currentStreak = L.currentStreak ∧ L'.bestStreak = L.bestStreak) := by
  refine ⟨?_, ?_, ?_, ?_⟩
  · intro hbad
    simp only [addActivity, validateActivityName_eq_none name hbad]
  · intro hgood hdup
    simp only [addActivity, validateActivityName_eq_some name hgood]
    rw [if_pos hdup]
  · intro hgood hdup hlim
    simp only [addActivity, validateActivityName_eq_some name hgood]
    rw [if_neg hdup, if_pos (by omega)]
  · intro L' h
    obtain ⟨-, -, hL'⟩ := addActivity_ok_spec L name L' h
    subst hL'
    exact ⟨rfl, rfl, rfl, rfl, rfl⟩

/-- C4 witness — the spec scenario: with 50 activities already present,
`addActivity "X"` fails with `LimitExceeded`. -/
theorem C4_addActivity_witness :
    addActivity { initialLedger 0 with activities := List.replicate 50 "A" } "X"
      = .error .LimitExceeded :=
  (C4_addActivity_errors { initialLedger 0 with activities := List.replicate 50 "A" }
    "X").2.2.1 (by decide) (by decide) (by decide)

/-! ## Association-list lemmas -/

theorem lookupKV_setKV_self {κ α : Type} [DecidableEq κ] (l : List (κ × α)) (k : κ) (v : α) :
    lookupKV (setKV l k v) k = some v := by
  induction l with
  | nil => simp [setKV, lookupKV]
  | cons p rest ih =>
    obtain ⟨k', v'⟩ := p
    by_cases hk : k' = k
    · subst hk
      simp [setKV, lookupKV]
    · simp only [setKV, if_neg hk, lookupKV]
      exact ih

/-- The record a toggle writes for `(today, name)` reads back as the
negation of what was read before (absent read as `false`). -/
theorem toggle_read (L : Ledger) (today : Int) (name : String) :
    lookupKV (dayRec (toggleActivity L today name) today) name
      = some (!((lookupKV (dayRec L today) name).getD false)) := by
  simp only [toggleActivity]
  show lookupKV ((lookupKV (setKV L.dailyData today
      (setKV (dayRec L today) name (!((lookupKV (dayRec L today) name).getD false)))) today).getD [])
      name = _
  rw [lookupKV_setKV_self]
  simp only [Option.getD_some]
  rw [lookupKV_setKV_self]

/-- C10 — toggling writes the key with the negation of the value read
before (an absent key reads as `false`); the key is never removed, so a
double toggle of any state reads back the original defaulted value, and a
double toggle of an initially untracked activity leaves it stored as
`false`, not untracked. -/
theorem C10_toggle_negation (L : Ledger) (today : Int) (name : String) :
    lookupKV (dayRec (toggleActivity L today name) today) name
        = some (!((lookupKV (dayRec L today) name).getD false)) ∧
    lookupKV (dayRec (toggleActivity (toggleActivity L today name) today name) today) name
        = some ((lookupKV (dayRec L today) name).getD false) ∧
    (lookupKV (dayRec L today) name = none →
      lookupKV (dayRec (toggleActivity (toggleActivity L today name) today name) today) name
        = some false) := by
  have h1 := toggle_read L today name
  have h2 := toggle_read (toggleActivity L today name) today name
  rw [h1] at h2
  simp only [Option.getD_some, Bool.not_not] at h2
  refine ⟨h1, h2, fun hnone => ?_⟩
  rw [hnone] at h2
  simpa using h2

/-- C10 witness — on the fresh ledger `"Gym"` is untracked; after two
toggles it reads back as stored `false`. -/
theorem C10_toggle_witness :
    lookupKV (dayRec (initialLedger 0) 0) "Gym" = none ∧
    lookupKV
        (dayRec (toggleActivity (toggleActivity (initialLedger 0) 0 "Gym") 0 "Gym") 0) "Gym"
      = some false :=
  ⟨by decide, (C10_toggle_negation (initialLedger 0) 0 "Gym").2.2 (by decide)⟩

/-- C5 counterexample — the claim fails on the code: with an empty
activity list, `toggleActivity "Gym"` does not fail and does change
`dailyData` (the unknown key is written). -/
theorem C5_toggle_unknown_counterexample :
    "Gym" ∉ (initialLedger 19725).activities ∧
    (toggleActivity (initialLedger 19725) 19725 "Gym").dailyData
      ≠ (initialLedger 19725).dailyData := by
  exact ⟨by decide, by decide⟩

/-- C5 (amended) — `toggleActivity` performs no membership check: for a
name not in `activities` it still writes the key into today's record with
the negation of the previously read value, polluting `dailyData` instead
of failing with `UnknownActivity`. -/
theorem C5_toggle_unknown_writes (L : Ledger) (today : Int) (name : String)
    (_h : name ∉ L.activities) :
    lookupKV (dayRec (toggleActivity L today name) today) name
      = some (!((lookupKV (dayRec L today) name).getD false)) :=
  toggle_read L today name

/-- C5 witness — the amended behavior at a concrete unknown name on the
fresh ledger. -/
theorem C5_toggle_unknown_witness :
    "Gym" ∉ (initialLedger 0).activities ∧
    lookupKV (dayRec (toggleActivity (initialLedger 0) 0 "Gym") 0) "Gym"
      = some (!((lookupKV (dayRec (initialLedger 0) 0) "Gym").getD false)) :=
  ⟨by decide, C5_toggle_unknown_writes (initialLedger 0) 0 "Gym" (by decide)⟩

/-! ## deleteActivity -/

/-- Restriction of a `DailyRecord` to a set of keys (used to compare
ledgers "on `dailyRecords` restricted to the keys of the other
activities"). -/
def restrictKeys {α : Type} (r : List (String × α)) (keys : List String) : List (String × α) :=
  r.filter (fun q => decide (q.1 ∈ keys))

theorem lookupKV_filter_ne {α : Type} (r : List (String × α)) (name : String) :
    lookupKV (r.filter (fun q => q.1 != name)) name = none := by
  induction r with
  | nil => rfl
  | cons p rest ih =>
    obtain ⟨k, v⟩ := p
    by_cases hk : k = name
    · subst hk
      simpa [List.filter_cons] using ih
    · have hb : (k != name) = true := bne_iff_ne.mpr hk
      simp only [List.filter_cons, hb, if_pos trivial, lookupKV]
      rw [if_neg hk]
      exact ih

theorem restrict_filter_ne {α : Type} (r : List (String × α)) (others : List String)
    (name : String) (h : name ∉ others) :
    restrictKeys (r.filter (fun q => q.1 != name)) others = restrictKeys r others := by
  induction r with
  | nil => rfl
  | cons p rest ih =>
    obtain ⟨k, v⟩ := p
    by_cases hk : k = name
    · subst hk
      have hmem : ¬ k ∈ others := h
      simp [restrictKeys, List.filter_cons, hmem] at ih ⊢
      exact ih
    · have hb : (k != name) = true := bne_iff_ne.mpr hk
      by_cases hm : k ∈ others
      · simp [restrictKeys, List.filter_cons, hb, hm] at ih ⊢
        exact ih
      · simp [restrictKeys, List.filter_cons, hb, hm] at ih ⊢
        exact ih

/-- C6 counterexample — the claim's "no-op when the name is not in
`activities`" fails on the code in two ways: (a) with `"X"` absent from
`activities` but present as a stale key of a `DailyRecord`,
`deleteActivity "X"` changes the ledger (it purges the key); (b) a
successful `addActivity " Gym"` (which stores the trimmed `"Gym"`)
followed by `deleteActivity " Gym"` with the same raw argument does not
restore the original `activities`. -/
theorem C6_delete_counterexample :
    (("X" ∉ ({ initialLedger 0 with
          dailyData := [(0, [("X", true)])] } : Ledger).activities) ∧
      deleteActivity { initialLedger 0 with dailyData := [(0, [("X", true)])] } "X"
        ≠ { initialLedger 0 with dailyData := [(0, [("X", true)])] }) ∧
    (addActivity (initialLedger 0) " Gym"
        = .ok { initialLedger 0 with activities := ["Gym"] } ∧
      (deleteActivity { initialLedger 0 with activities := ["Gym"] } " Gym").activities
        ≠ (initialLedger 0).activities) := by
  refine ⟨⟨by decide, by decide⟩, ⟨rfl, by decide⟩⟩

/-- C6 (amended) — `deleteActivity name` removes `name` from `activities`
and deletes the key `name` from every `DailyRecord`; when `name` is not in
`activities` it raises no error and leaves `activities` unchanged, but it
still purges the key `name` from `dailyData` (so it is a full no-op only
when no record holds that key); and a successful `addActivity raw`
followed by `deleteActivity` of the *sanitized* name restores the
original `activities` and the original `dailyData` restricted to the keys
of the other activities. -/
theorem C6_deleteActivity_roundtrip (L : Ledger) (name raw : String) :
    (deleteActivity L name).activities = L.activities.filter (fun a => a != name) ∧
    (∀ p ∈ (deleteActivity L name).dailyData, lookupKV p.2 name = none) ∧
    (name ∉ L.activities → (deleteActivity L name).activities = L.activities) ∧
    (∀ L', addActivity L raw = .ok L' →
      (deleteActivity L' (trimInput (sanitizeInput raw))).activities = L.activities ∧
      (deleteActivity L' (trimInput (sanitizeInput raw))).dailyData.map
          (fun p => (p.1, restrictKeys p.2
            (L.activities.filter (fun a => a != trimInput (sanitizeInput raw)))))
        = L.dailyData.map
          (fun p => (p.1, restrictKeys p.2
            (L.activities.filter (fun a => a != trimInput (sanitizeInput raw)))))) := by
  refine ⟨rfl, ?_, ?_, ?_⟩
  · intro p hp
    simp only [deleteActivity, List.mem_map] at hp
    obtain ⟨q, -, rfl⟩ := hp
    exact lookupKV_filter_ne q.2 name
  · intro hmem
    simp only [deleteActivity]
    exact List.filter_eq_self.mpr fun a ha => bne_iff_ne.mpr (fun he => hmem (he ▸ ha))
  · intro L' hok
    obtain ⟨hfresh, -, hL'⟩ := addActivity_ok_spec L raw L' hok
    subst hL'
    constructor
    · simp only [deleteActivity, List.filter_append]
      have h1 : L.activities.filter
          (fun a => a != trimInput (sanitizeInput raw)) = L.activities :=
        List.filter_eq_self.mpr fun a ha => bne_iff_ne.mpr (fun he => hfresh (he ▸ ha))
      have h2 : [trimInput (sanitizeInput raw)].filter
          (fun a => a != trimInput (sanitizeInput raw)) = [] := by
        simp
      rw [h1, h2, List.append_nil]
    · simp only [deleteActivity, List.map_map]
      have hnotin : trimInput (sanitizeInput raw)
          ∉ L.activities.filter (fun a => a != trimInput (sanitizeInput raw)) := by
        intro hmem
        have := List.of_mem_filter hmem
        simp at this
      apply List.map_congr_left
      intro p _
      simp only [Function.comp]
      rw [restrict_filter_ne p.2 _ _ hnotin]

/-- C6 witness — the add/delete round trip at a concrete ledger: adding
`"Gym"` to the fresh ledger and deleting it restores the empty activity
list, and the no-error/no-activity-change part at an absent name. -/
theorem C6_delete_witness :
    (deleteActivity { initialLedger 0 with activities := ["Gym"] } "Gym").activities
        = (initialLedger 0).activities ∧
    (deleteActivity (initialLedger 0) "Jog").activities = (initialLedger 0).activities :=
  ⟨((C6_deleteActivity_roundtrip (initialLedger 0) "Gym" "Gym").2.2.2
      { initialLedger 0 with activities := ["Gym"] } rfl).1,
    (C6_deleteActivity_roundtrip (initialLedger 0) "Jog" "Jog").2.2.1 (by decide)⟩

/-! ## Reachable ledger states and the app-open log -/

theorem recomputeStreaks_appOpens_nodup (L : Ledger) (today : Int)
    (h : L.appOpens.Nodup) : (recomputeStreaks L today).appOpens.Nodup := by
  unfold recomputeStreaks
  by_cases he : L.appOpens = []
  · simp only [if_pos he]
    exact h
  · simp only [if_neg he]
    exact ((List.perm_insertionSort (· ≤ ·) L.appOpens).nodup_iff).mpr h

/-- The mutating entry points of the source as a reachability predicate on
ledger states, starting from `initializeData`. -/
inductive Reachable : Ledger → Prop
  | init (today : Int) : Reachable (initialLedger today)
  | track {L : Ledger} (today : Int) : Reachable L → Reachable (trackAppOpen L today)
  | add {L L' : Ledger} (name : String) :
      Reachable L → addActivity L name = .ok L' → Reachable L'
  | del {L : Ledger} (name : String) : Reachable L → Reachable (deleteActivity L name)
  | toggle {L : Ledger} (today : Int) (name : String) :
      Reachable L → Reachable (toggleActivity L today name)
  | recompute {L : Ledger} (today : Int) :
      Reachable L → Reachable (recomputeStreaks L today)

/-- C9 — on every reachable ledger state the `appOpens` log has no
duplicate entries, and recording an app open on a day already present is
a complete no-op (`appOpens`, the cached streak fields and everything
else are unchanged). -/
theorem C9_appOpens_no_duplicates (L : Ledger) (today : Int) :
    (Reachable L → L.appOpens.Nodup) ∧
    (today ∈ L.appOpens → trackAppOpen L today = L) := by
  constructor
  · intro h
    induction h with
    | init t => simp [initialLedger]
    | @track M t _ ih =>
      unfold trackAppOpen
      by_cases hm : t ∈ M.appOpens
      · simpa [hm] using ih
      · rw [if_neg hm]
        show (recomputeStreaks { M with appOpens := M.appOpens ++ [t] } t).appOpens.Nodup
        apply recomputeStreaks_appOpens_nodup
        show (M.appOpens ++ [t]).Nodup
        simp [List.nodup_append, ih, hm]
    | @add M M' nm _ hok ih =>
      obtain ⟨-, -, hM'⟩ := addActivity_ok_spec M nm M' hok
      subst hM'
      exact ih
    | @del M nm _ ih => exact ih
    | @toggle M t nm _ ih => exact ih
    | @recompute M t _ ih => exact recomputeStreaks_appOpens_nodup M t ih
  · intro hmem
    unfold trackAppOpen
    rw [if_pos hmem]

/-- C9 witness — the invariant at the initial ledger, and the no-op at a
ledger that already logged today. -/
theorem C9_appOpens_witness :
    (initialLedger 0).appOpens.Nodup ∧
    trackAppOpen { initialLedger 0 with appOpens := [5] } 5
      = { initialLedger 0 with appOpens := [5] } :=
  ⟨(C9_appOpens_no_duplicates (initialLedger 0) 0).1 (Reachable.init 0),
    (C9_appOpens_no_duplicates { initialLedger 0 with appOpens := [5] } 5).2 (by decide)⟩

/-! ## Date keys are UTC-based, not local (C8) -/

/-- C8 — refutation on the code: the produced DateKeys are the UTC
calendar dates of the `toISOString` calls, not the local wall-clock
dates.  At offset UTC−5:00 with the instant 2024-01-02 01:00 UTC the
local calendar date is 2024-01-01, but `getTodayDate` yields
`"2024-01-02"` and the weekly range starts at `"2023-12-27"` instead of
the local `"2023-12-26"`.  At offset UTC+5:30 on local 2024-03-15 noon,
the monthly range starts at `"2024-02-29"` — a date outside the current
month — and does not contain the local last day `"2024-03-31"`. -/
theorem C8_datekeys_are_utc_not_local :
    civilFromDays (Int.ediv ((19723 * 1440 + 1500) + (-300)) 1440) = (2024, 1, 1) ∧
    getTodayDate (19723 * 1440 + 1500) (-300) = "2024-01-02" ∧
    (getWeekDates (19723 * 1440 + 1500) (-300)).head? = some "2023-12-27" ∧
    civilFromDays (Int.ediv ((19797 * 1440 + 390) + 330) 1440) = (2024, 3, 15) ∧
    (getMonthDates (19797 * 1440 + 390) 330).head? = some "2024-02-29" ∧
    "2024-03-31" ∉ getMonthDates (19797 * 1440 + 390) 330 := by
  exact ⟨by decide, by decide, by decide, by decide, by decide, by decide⟩
